import Mathlib

/-!
Verification of the hybrid resume-scoring pipeline
(`backend/skill_analyzer.py`, `backend/app.py`).

Python strings are modelled as `List Char` (`Str`); `str.lower()` as a
character-wise lowercase map; Python's substring test `a in b` as an
executable sub-list search on the lowered character lists; `re.search`
with an escaped skill wrapped in `\b … \b` as an executable word-boundary
search (`\w` is modelled as the ASCII alphanumerics plus underscore).
Python numbers that flow into scores are modelled as `ℚ`.  Python's
`try/except Exception` is modelled by `tryExcept` over an `Except`-valued
body.  Python dicts that the code builds by insertion are modelled as
association lists in insertion order.
-/

/-- Python `str` as a list of characters. -/
abbrev Str := List Char

/-- Python `str.lower()` (character-wise; ASCII case mapping). -/
def pyLower (s : Str) : Str := s.map Char.toLower

/-- Python regex word character `\w` (ASCII fragment): alphanumeric or `_`. -/
def isWordChar (c : Char) : Bool := c.isAlphanum || c == '_'

/-- Whether `\b` matches between an (optional) left char and an (optional)
right char: exactly one side is a word character, out-of-string counts as
non-word. -/
def wordBoundary (l r : Option Char) : Bool :=
  (match l with | none => false | some c => isWordChar c) !=
  (match r with | none => false | some c => isWordChar c)

/-- Boolean test that `pat` is a prefix of `s` (literal match, as produced
by `re.escape`). -/
def strHasPre : Str → Str → Bool
  | [], _ => true
  | _ :: _, [] => false
  | a :: as, b :: bs => a == b && strHasPre as bs

/-- Auxiliary scan for `re.search(r'\b' + re.escape(pat) + r'\b', text)`:
`prev` is the character just left of the current position. -/
def wbScan (pat : Str) : Option Char → Str → Bool
  | prev, [] =>
      strHasPre pat [] && wordBoundary prev pat.head? &&
        wordBoundary pat.getLast? none
  | prev, c :: rest =>
      (strHasPre pat (c :: rest) && wordBoundary prev pat.head? &&
        wordBoundary pat.getLast? ((List.drop pat.length (c :: rest)).head?))
      || wbScan pat (some c) rest

/-- Executable form of `re.search(r'\b' + re.escape(pat) + r'\b', text) is not None`. -/
def wbSearch (pat text : Str) : Bool := wbScan pat none text

/-- Python's substring operator `pat in hay` (exact, case-sensitive). -/
def strOccurs (pat hay : Str) : Bool :=
  match hay with
  | [] => strHasPre pat []
  | c :: rest => strHasPre pat (c :: rest) || strOccurs pat rest

/-- Helper: build a `Str` from a Lean string literal. -/
def S (s : String) : Str := s.data

/-- The skill taxonomy `self.skill_categories`, in source order. -/
def skill_categories : List (Str × List Str) :=
  [ (S "programming_languages",
      [S "python", S "java", S "javascript", S "typescript", S "c++", S "c#",
       S "php", S "ruby", S "go", S "rust", S "swift", S "kotlin", S "scala",
       S "r", S "matlab", S "sql", S "perl", S "haskell"]),
    (S "web_technologies",
      [S "html", S "css", S "sass", S "less", S "react", S "angular", S "vue",
       S "node.js", S "express", S "django", S "flask", S "spring",
       S "laravel", S "jquery", S "bootstrap", S "webpack", S "gatsby"]),
    (S "databases",
      [S "mysql", S "postgresql", S "mongodb", S "redis", S "elasticsearch",
       S "oracle", S "sqlite", S "cassandra", S "dynamodb", S "neo4j",
       S "mariadb", S "couchdb", S "firebase"]),
    (S "cloud_devops",
      [S "aws", S "azure", S "gcp", S "docker", S "kubernetes", S "jenkins",
       S "gitlab", S "github actions", S "terraform", S "ansible", S "chef",
       S "puppet", S "circleci", S "nginx", S "apache"]),
    (S "data_science_ml",
      [S "machine learning", S "deep learning", S "tensorflow", S "pytorch",
       S "scikit-learn", S "pandas", S "numpy", S "matplotlib", S "keras",
       S "opencv", S "nlp", S "computer vision"]),
    (S "soft_skills",
      [S "leadership", S "communication", S "teamwork", S "problem solving",
       S "project management", S "analytical", S "time management",
       S "creativity", S "collaboration", S "adaptability"]) ]

/-- Association-list lookup modelling `d.get(k, [])` / `d[k]` on the
insertion-ordered dicts the code builds. -/
def dictGet (d : List (Str × List Str)) (k : Str) : List Str :=
  match d.find? (fun p => p.1 == k) with
  | some p => p.2
  | none => []

/-- Membership test `k in d` for such a dict. -/
def dictHasKey (d : List (Str × List Str)) (k : Str) : Bool :=
  d.any (fun p => p.1 == k)

/-- Python truthiness of the optional `job_description` argument
(`None` and the empty string are falsy). -/
def pyTruthy : Option Str → Bool
  | none => false
  | some s => !s.isEmpty

/-- Lexicographic `≤` on strings by code point, as used by Python
`sorted`. -/
def strle : Str → Str → Bool
  | [], _ => true
  | _ :: _, [] => false
  | a :: as, b :: bs => if a < b then true else if a == b then strle as bs else false

/-- Insert into a sorted list (auxiliary for `sortStr`). -/
def insertSorted (x : Str) : List Str → List Str
  | [] => [x]
  | y :: ys => if strle x y then x :: y :: ys else y :: insertSorted x ys

/-- Python `sorted` on a list of strings (insertion sort; only the
multiset of elements matters for the verified properties). -/
def sortStr : List Str → List Str
  | [] => []
  | x :: xs => insertSorted x (sortStr xs)

/-- The per-category scan of `analyze_skills`: the category's skills that
have a word-boundary occurrence in the (already lowered) text. -/
def detectCat (text_lower : Str) (skills : List Str) : List Str :=
  skills.filter (fun skill => wbSearch skill text_lower)

/-- The `found_skills` defaultdict of `analyze_skills`: categories (in
taxonomy order) paired with their detected skills, keeping only
categories where at least one skill was appended. -/
def foundSkills (text : Str) : List (Str × List Str) :=
  (skill_categories.map (fun p => (p.1, detectCat (pyLower text) p.2))).filter
    (fun p => !p.2.isEmpty)

/-- All taxonomy skills detected in a text (the aggregate job-side skill
set when the text is a job description). -/
def detectedSkills (text : Str) : List Str :=
  (foundSkills text).flatMap (fun p => p.2)

/-- The comparison result built when a job description is supplied
(lines 84–96 of `skill_analyzer.py`). -/
structure SkillComparison where
  resume_skills : List (Str × List Str)
  job_skills : List (Str × List Str)
  matched_skills : List Str
  missing_skills : List Str
  skill_match_percentage : ℚ
deriving DecidableEq, Repr

/-- The two result shapes `analyze_skills` can return: the flat
category-to-skills profile, or the comparison structure. -/
inductive SkillOutput
  | profile (p : List (Str × List Str))
  | comparison (c : SkillComparison)
deriving DecidableEq, Repr

/-- Python raised exceptions, as far as the handlers distinguish them. -/
inductive PyErr
  | valueError (msg : Str)
  | otherError (msg : Str)
deriving DecidableEq

/-- Model of `try: body except Exception: return default` — the catch-all handler
pattern used by every `SkillAnalyzer` method. -/
def tryExcept {α : Type _} (body : Except PyErr α) (default : α) : α :=
  match body with
  | .ok a => a
  | .error _ => default

/-- The comparison structure built by `analyze_skills` when a job
description is supplied (lines 70–96 of `skill_analyzer.py`): per job
category, `matched = resume ∩ job` and `missing = job − resume`,
aggregated and sorted; the percentage divides the matched count by the
size of the union of all detected job skills (floored at 1). -/
def compareSkills (found job : List (Str × List Str)) : SkillComparison :=
  let matched_skills :=
    job.flatMap (fun p => p.2.filter (fun s => s ∈ dictGet found p.1))
  let missing_skills :=
    job.flatMap (fun p => p.2.filter (fun s => s ∉ dictGet found p.1))
  { resume_skills := found.map (fun p => (p.1, sortStr p.2)),
    job_skills := job.map (fun p => (p.1, sortStr p.2)),
    matched_skills := sortStr matched_skills,
    missing_skills := sortStr missing_skills,
    skill_match_percentage :=
      (matched_skills.length : ℚ) /
        ((max ((job.flatMap (fun p => p.2)).dedup.length) 1 : ℕ) : ℚ) * 100 }

/-- The body of `SkillAnalyzer.analyze_skills` (the code inside the
`try`): detect the resume's skills; when the job description is truthy,
also detect its skills and return the comparison structure, otherwise
return the flat sorted profile. -/
def analyze_skills_body (resume_text : Str) (job_description : Option Str) :
    SkillOutput :=
  let found := foundSkills resume_text
  if pyTruthy job_description then
    .comparison (compareSkills found (foundSkills (job_description.getD [])))
  else
    .profile (found.map (fun p => (p.1, sortStr p.2)))

/-- Method `SkillAnalyzer.analyze_skills`: the body wrapped in the catch-all
handler; on an internal error the method returns `{}` (the empty
mapping, i.e. the profile with no categories). -/
def analyze_skills (resume_text : Str) (job_description : Option Str) :
    SkillOutput :=
  tryExcept (Except.ok (analyze_skills_body resume_text job_description))
    (.profile [])

/-- View an `analyze_skills` result as the flat dict shape (calls with no
job description always produce the `profile` shape, which is the shape
`get_skill_gap` consumes). -/
def profileOf : SkillOutput → List (Str × List Str)
  | .profile p => p
  | .comparison _ => []

/-- The body of `SkillAnalyzer.get_skill_gap`: per taxonomy category,
`job skills − resume skills`, keeping only categories with a non-empty
difference, each sorted. -/
def get_skill_gap_body (resume_text job_description : Str) :
    List (Str × List Str) :=
  let rp := profileOf (analyze_skills resume_text none)
  let jp := profileOf (analyze_skills job_description none)
  (skill_categories.map (fun p =>
      (p.1, sortStr ((dictGet jp p.1).filter (fun s => s ∉ dictGet rp p.1))))).filter
    (fun q => !q.2.isEmpty)

/-- Method `SkillAnalyzer.get_skill_gap`, with its catch-all handler returning
the empty mapping. -/
def get_skill_gap (resume_text job_description : Str) :
    List (Str × List Str) :=
  tryExcept (Except.ok (get_skill_gap_body resume_text job_description)) []

/-- The fixed priority category list of `get_skill_suggestions`. -/
def priority_categories : List Str :=
  [S "programming_languages", S "web_technologies", S "cloud_devops",
   S "data_science_ml"]

/-- Python `category.replace('_', ' ')`. -/
def underscoreToSpace (s : Str) : Str :=
  s.map (fun c => if c == '_' then ' ' else c)

/-- The suggestion string built for a priority-category skill. -/
def prioMsg (category skill : Str) : Str :=
  S "Consider learning " ++ skill ++ S " to improve your " ++
    underscoreToSpace category ++ S " skills"

/-- The suggestion string built for a non-priority-category skill. -/
def restMsg (skill : Str) : Str :=
  S "Consider adding " ++ skill ++ S " to your skillset"

/-- The first loop of `get_skill_suggestions`: for each priority category
present in the dict, up to 2 suggestions (`skills[:2]`), in the fixed
priority order. -/
def prioritySuggestions (d : List (Str × List Str)) : List Str :=
  priority_categories.flatMap (fun c =>
    if dictHasKey d c then ((dictGet d c).take 2).map (prioMsg c) else [])

/-- The keys of the dict that are not priority categories, in insertion
order (`remaining_categories`). -/
def nonPriorityKeys (d : List (Str × List Str)) : List Str :=
  (d.map (fun p => p.1)).filter (fun k => !(priority_categories.contains k))

/-- The second loop of `get_skill_suggestions`: walk the remaining
categories, breaking as soon as the accumulated list reaches
`num_suggestions`, adding up to 1 suggestion (`skills[:1]`) per
category. -/
def remainingLoop (d : List (Str × List Str)) (n : Nat) :
    List Str → List Str → List Str
  | [], acc => acc
  | c :: cs, acc =>
      if n ≤ acc.length then acc
      else remainingLoop d n cs (acc ++ ((dictGet d c).take 1).map restMsg)

/-- The body of `SkillAnalyzer.get_skill_suggestions`. -/
def get_skill_suggestions_body (missing_skills : List (Str × List Str))
    (num_suggestions : Nat) : List Str :=
  let s := prioritySuggestions missing_skills
  let s :=
    if s.length < num_suggestions then
      remainingLoop missing_skills num_suggestions
        (nonPriorityKeys missing_skills) s
    else s
  s.take num_suggestions

/-- Method `SkillAnalyzer.get_skill_suggestions`, with its catch-all handler
returning the empty list. -/
def get_skill_suggestions (missing_skills : List (Str × List Str))
    (num_suggestions : Nat) : List Str :=
  tryExcept (Except.ok (get_skill_suggestions_body missing_skills num_suggestions)) []

/-!  ## `app.py`: the recommendation composer `generate_recommendations` -/

/-- The record the composer accumulates into. -/
structure Recommendations where
  strengths : List Str
  weaknesses : List Str
  action_items : List Str
deriving DecidableEq, Repr

/-- Python `a.lower() in b.lower()`: case-insensitive substring test. -/
def ciSubstr (a b : Str) : Bool :=
  strOccurs (pyLower a) (pyLower b)

/-- The ATS score-tier block (lines 292–307 of `app.py`): an
`if / elif / else` three-way tier on the rule-based score. -/
def tierBlock (ats_score : ℚ) (r : Recommendations) : Recommendations :=
  if 80 ≤ ats_score then
    { r with strengths := r.strengths ++ [S "Strong ATS compatibility"] }
  else if 60 ≤ ats_score then
    { r with
      strengths := r.strengths ++ [S "Good basic ATS formatting"],
      action_items := r.action_items ++
        [S "Add more industry-specific keywords",
         S "Enhance section headers for better visibility"] }
  else
    { r with
      weaknesses := r.weaknesses ++ [S "Needs ATS optimization"],
      action_items := r.action_items ++
        [S "Add relevant keywords from the job description",
         S "Improve section headers (Experience, Education, Skills)",
         S "Use bullet points for better readability",
         S "Include contact information and professional links"] }

/-- Python `', '.join(l)`. -/
def joinComma (l : List Str) : Str :=
  (l.intersperse (S ", ")).flatten

/-- Decimal rendering of a count, for the `f"..."` strings. -/
def natStr (n : Nat) : Str := (toString n).data

/-- The skill-analysis block (lines 310–323 of `app.py`).  The
`skill_analysis` argument models the dict: `none` for a falsy (empty)
dict, otherwise the values of `matched_skills` / `missing_skills`
(defaulting to `[]` when absent, as `dict.get` does). -/
def skillBlock (skill_analysis : Option (List Str × List Str))
    (r : Recommendations) : Recommendations :=
  match skill_analysis with
  | none => r
  | some (matched, missing) =>
    let r :=
      if !matched.isEmpty then
        { r with strengths := r.strengths ++
            [S "Strong match in " ++ natStr matched.length ++ S " key skills"] }
      else r
    if !missing.isEmpty then
      { r with
        weaknesses := r.weaknesses ++
          [S "Missing " ++ natStr missing.length ++ S " relevant skills"],
        action_items := r.action_items ++
          [S "Consider developing: " ++ joinComma (missing.take 3),
           S "Focus on acquiring the missing technical skills",
           S "Highlight transferable skills that compensate for gaps"] }
    else r

/-- One step of the LLM-improvement merge (lines 327–330 of `app.py`):
skip the improvement when an existing action item contains it
case-insensitively, otherwise append it. -/
def llmMergeStep (r : Recommendations) (improvement : Str) : Recommendations :=
  if r.action_items.any (fun item => ciSubstr improvement item) then r
  else { r with action_items := r.action_items ++ [improvement] }

/-- The LLM-improvement block (`if llm_improvements:` — `None` is
modelled as the empty list, which the falsiness test also skips). -/
def llmBlock (llm_improvements : List Str) (r : Recommendations) :
    Recommendations :=
  if llm_improvements.isEmpty then r
  else llm_improvements.foldl llmMergeStep r

/-- The fixed format recommendations of the hygiene pass. -/
def format_recommendations : List Str :=
  [S "Use consistent date formats",
   S "Add more bullet points for achievements",
   S "Include clear section headers",
   S "Add quantifiable achievements"]

/-- One step of the format-hygiene pass: append unless already contained
case-insensitively in an existing action item. -/
def formatStep (r : Recommendations) (rec : Str) : Recommendations :=
  if !(r.action_items.any (fun item => ciSubstr rec item)) then
    { r with action_items := r.action_items ++ [rec] }
  else r

/-- The format-hygiene block (lines 333–343 of `app.py`), run only when
`ats_score < 80`. -/
def formatBlock (ats_score : ℚ) (r : Recommendations) : Recommendations :=
  if ats_score < 80 then format_recommendations.foldl formatStep r else r

/-- The value computed by the body of `generate_recommendations` at its
first `return` statement. -/
def grBody (skill_analysis : Option (List Str × List Str)) (ats_score : ℚ)
    (llm_improvements : List Str) : Recommendations :=
  formatBlock ats_score
    (llmBlock llm_improvements
      (skillBlock skill_analysis
        (tierBlock ats_score ⟨[], [], []⟩)))

/-- Function `generate_recommendations` as the caller observes it. -/
def generate_recommendations (skill_analysis : Option (List Str × List Str))
    (ats_score : ℚ) (llm_improvements : List Str) : Recommendations :=
  grBody skill_analysis ats_score llm_improvements

/-- Sequential `return`-statement semantics: run statements in order;
a statement either returns a value (`Sum.inl`) or continues with the
updated state (`Sum.inr`). -/
def runReturns {σ ρ : Type _} : List (σ → Sum ρ σ) → σ → Option ρ
  | [], _ => none
  | s :: rest, st =>
      match s st with
      | .inl r => some r
      | .inr st2 => runReturns rest st2

/-- The two trailing statements of `generate_recommendations`:
`return recommendations` followed by the duplicated
`return recommendations`. -/
def grTailStatements :
    List (Recommendations → Sum Recommendations Recommendations) :=
  [fun r => Sum.inl r, fun r => Sum.inl r]

/-- Function `generate_recommendations` with the tail of its body executed under
explicit return semantics. -/
def generate_recommendations_run
    (skill_analysis : Option (List Str × List Str)) (ats_score : ℚ)
    (llm_improvements : List Str) : Option Recommendations :=
  runReturns grTailStatements (grBody skill_analysis ats_score llm_improvements)

/-!  ## `app.py`: `get_enhanced_llm_analysis` -/

/-- The fallback `llm_analysis` dict built on a rate-limit error. -/
structure LLMAnalysisFallback where
  strengths : List Str
  improvement_areas : List Str
  action_insights : List Str
  overall_impression : Str
  match_score : ℚ
deriving DecidableEq

/-- The `overall_score` entry of the fallback score matrix. -/
structure OverallScore where
  score : ℚ
  analysis : Str
deriving DecidableEq

/-- The fallback `score_matrix` dict built on a rate-limit error. -/
structure ScoreMatrixFallback where
  overall_score : OverallScore
  key_strengths : List Str
  improvement_opportunities : List Str
  action_insights : List Str
deriving DecidableEq

/-- The fixed placeholder `llm_analysis` stub of the rate-limit path. -/
def llmFallbackStub (ats_score : ℚ) : LLMAnalysisFallback :=
  { strengths := [S "Processed without enhanced AI analysis due to rate limiting"],
    improvement_areas := [S "Consider trying again later for enhanced analysis"],
    action_insights := [S "Continue with basic analysis for now"],
    overall_impression :=
      S "Analysis completed with limited AI enhancement due to service limitations",
    match_score := ats_score }

/-- The basic `score_matrix` stub of the rate-limit path; its overall
score is the average of the two locally computed scores. -/
def scoreMatrixStub (ats_score match_score : ℚ) : ScoreMatrixFallback :=
  { overall_score :=
      { score := (ats_score + match_score) / 2,
        analysis := S "Basic scoring without enhanced AI analysis" },
    key_strengths := [S "Basic analysis due to rate limiting"],
    improvement_opportunities := [S "Try again later for enhanced analysis"],
    action_insights := [S "Continue with basic analysis"] }

/-- The two LLM calls of `get_enhanced_llm_analysis` in sequence (the
second consumes the first's result); an exception from either
propagates. -/
def llmCalls {α β : Type} (c1 : Except PyErr α) (c2 : α → Except PyErr β) :
    Except PyErr (α × β) := do
  let a ← c1
  let m ← c2 a
  pure (a, m)

/-- Function `get_enhanced_llm_analysis`, with the two LLM calls supplied as
`Except`-valued parameters (they are calls on an external engine object;
`c2` consumes the first call's result).  The returned `Except` layer
records whether the function itself raises: every handler branch
returns, so every outcome is `.ok`.  The triple is
`(llm_analysis, score_matrix, error)`, where each of the first two slots
is either the LLM's own object (`Sum.inl`) or the fallback stub
(`Sum.inr`). -/
def get_enhanced_llm_analysis {α β : Type}
    (c1 : Except PyErr α) (c2 : α → Except PyErr β)
    (ats_score match_score : ℚ) :
    Except PyErr
      (Option (Sum α (LLMAnalysisFallback)) ×
       Option (Sum β (ScoreMatrixFallback)) × Option Str) :=
  match llmCalls c1 c2 with
  | .ok (a, m) => .ok (some (.inl a), some (.inl m), none)
  | .error (.valueError msg) =>
      if strOccurs (S "Rate limit exceeded") msg then
        .ok (some (.inr (llmFallbackStub ats_score)),
             some (.inr (scoreMatrixStub ats_score match_score)),
             some (S "Rate limit exceeded. Using basic analysis."))
      else
        .ok (none, none, some msg)
  | .error (.otherError msg) => .ok (none, none, some msg)

/-!  ## Basic lemmas about the string model -/

theorem strHasPre_iff (p s : Str) : strHasPre p s = true ↔ ∃ t, p ++ t = s := by
  induction p generalizing s with
  | nil => simp [strHasPre]
  | cons a as ih =>
    cases s with
    | nil => simp [strHasPre]
    | cons b bs =>
      simp only [strHasPre, Bool.and_eq_true, beq_iff_eq, ih]
      constructor
      · rintro ⟨rfl, t, rfl⟩
        exact ⟨t, rfl⟩
      · rintro ⟨t, h⟩
        simp only [List.cons_append, List.cons.injEq] at h
        exact ⟨h.1, t, h.2⟩

theorem strHasPre_self (p : Str) : strHasPre p p = true := by
  rw [strHasPre_iff]
  exact ⟨[], by simp⟩

theorem strOccurs_self (p : Str) : strOccurs p p = true := by
  cases p with
  | nil => simp [strOccurs, strHasPre]
  | cons c rest => simp [strOccurs, strHasPre_self]

theorem ciSubstr_of_lower_eq {a b : Str} (h : pyLower a = pyLower b) :
    ciSubstr a b = true := by
  unfold ciSubstr
  rw [h]
  exact strOccurs_self _

theorem pyLower_append (a b : Str) :
    pyLower (a ++ b) = pyLower a ++ pyLower b := by
  simp [pyLower]

theorem ne_append_of_strHasPre_false {pre t : Str}
    (h : strHasPre pre t = false) (x : Str) : pre ++ x ≠ t := by
  intro hc
  have : strHasPre pre t = true := (strHasPre_iff pre t).mpr ⟨x, hc⟩
  simp [this] at h

/-!  ## Lemmas about `sortStr` -/

theorem insertSorted_perm (x : Str) (l : List Str) :
    (insertSorted x l).Perm (x :: l) := by
  induction l with
  | nil => simp [insertSorted]
  | cons y ys ih =>
    unfold insertSorted
    by_cases h : strle x y = true
    · simp [h]
    · simp only [Bool.not_eq_true] at h
      simp only [h, Bool.false_eq_true, if_false]
      exact (ih.cons y).trans (List.Perm.swap x y ys)

theorem sortStr_perm (l : List Str) : (sortStr l).Perm l := by
  induction l with
  | nil => simp [sortStr]
  | cons x xs ih => exact (insertSorted_perm x (sortStr xs)).trans (ih.cons x)

theorem mem_sortStr {s : Str} {l : List Str} : s ∈ sortStr l ↔ s ∈ l :=
  (sortStr_perm l).mem_iff

theorem nodup_sortStr {l : List Str} (h : l.Nodup) : (sortStr l).Nodup :=
  ((sortStr_perm l).nodup_iff).mpr h

theorem length_sortStr (l : List Str) : (sortStr l).length = l.length :=
  (sortStr_perm l).length_eq

/-!  ## Lemmas about the taxonomy -/

theorem taxonomy_keys_nodup :
    (skill_categories.map (fun p => p.1)).Nodup := by decide

theorem taxonomy_vals_nodup : ∀ q ∈ skill_categories, q.2.Nodup := by decide

theorem taxonomy_pairwise_disjoint :
    skill_categories.Pairwise (fun p q => ∀ s ∈ p.2, s ∉ q.2) := by decide

theorem dictGet_of_mem {d : List (Str × List Str)} {c : Str} {l : List Str}
    (hnd : (d.map (fun p => p.1)).Nodup) (hmem : (c, l) ∈ d) :
    dictGet d c = l := by
  induction d with
  | nil => simp at hmem
  | cons p rest ih =>
    simp only [List.map_cons, List.nodup_cons] at hnd
    rcases List.mem_cons.mp hmem with h | h
    · subst h
      simp [dictGet, List.find?]
    · have hne : p.1 ≠ c := by
        intro he
        exact hnd.1 (he ▸ (List.mem_map.mpr ⟨(c, l), h, rfl⟩))
      have : (p.1 == c) = false := by
        simp [hne]
      simp only [dictGet, List.find?, this]
      exact ih hnd.2 h

/-!  ## Shape lemmas for `foundSkills` -/

theorem foundSkills_mem {t : Str} {p : Str × List Str}
    (h : p ∈ foundSkills t) :
    ∃ w ∈ skill_categories, p = (w.1, detectCat (pyLower t) w.2) := by
  unfold foundSkills at h
  have h2 := List.mem_of_mem_filter h
  rcases List.mem_map.mp h2 with ⟨w, hw, he⟩
  exact ⟨w, hw, he.symm⟩

theorem foundSkills_entry_nodup {t : Str} {p : Str × List Str}
    (h : p ∈ foundSkills t) : p.2.Nodup := by
  rcases foundSkills_mem h with ⟨w, hw, rfl⟩
  exact List.Nodup.filter _ (taxonomy_vals_nodup w hw)

theorem foundSkills_entry_sub {t : Str} {p : Str × List Str}
    (h : p ∈ foundSkills t) : ∀ s ∈ p.2, s ∈ dictGet skill_categories p.1 := by
  rcases foundSkills_mem h with ⟨w, hw, rfl⟩
  intro s hs
  rw [dictGet_of_mem taxonomy_keys_nodup (by exact hw)]
  exact List.mem_of_mem_filter hs

theorem foundSkills_pairwise (t : Str) :
    (foundSkills t).Pairwise (fun p q => ∀ s ∈ p.2, s ∉ q.2) := by
  unfold foundSkills
  apply List.Pairwise.sublist (List.filter_sublist _)
  rw [List.pairwise_map]
  apply List.Pairwise.imp _ taxonomy_pairwise_disjoint
  intro p q hpq s hs
  intro hsq
  exact hpq s (List.mem_of_mem_filter hs) (List.mem_of_mem_filter hsq)

theorem nodup_flatMap_of {l : List (Str × List Str)}
    {f : Str × List Str → List Str}
    (hsub : ∀ p ∈ l, (f p).Nodup)
    (hmono : ∀ p, ∀ s ∈ f p, s ∈ p.2)
    (hdisj : l.Pairwise (fun p q => ∀ s ∈ p.2, s ∉ q.2)) :
    (l.flatMap f).Nodup := by
  induction l with
  | nil => simp
  | cons p rest ih =>
    rw [List.flatMap_cons, List.nodup_append]
    rcases List.pairwise_cons.mp hdisj with ⟨hp, hrest⟩
    refine ⟨hsub p (by simp), ih (fun q hq => hsub q (by simp [hq])) hrest, ?_⟩
    intro a ha hb
    rcases List.mem_flatMap.mp hb with ⟨q, hq, haq⟩
    exact hp q hq a (hmono p a ha) (hmono q a haq)

/-!  ## Claim theorems -/

/-- C3: the Skill Analyzer methods `analyze_skills`, `get_skill_gap` and
`get_skill_suggestions` never propagate an exception: each one is its
body wrapped in the catch-all `tryExcept`, and `tryExcept` turns any
internal error into the empty mapping / empty list default. -/
theorem claim_C3_analyzer_never_propagates :
    (∀ (α : Type) (e : Except PyErr α) (d : α),
      (∃ m, e = Except.error m) → tryExcept e d = d) ∧
    (∀ r jd, analyze_skills r jd =
      tryExcept (Except.ok (analyze_skills_body r jd)) (SkillOutput.profile [])) ∧
    (∀ r jd, get_skill_gap r jd =
      tryExcept (Except.ok (get_skill_gap_body r jd)) []) ∧
    (∀ ms n, get_skill_suggestions ms n =
      tryExcept (Except.ok (get_skill_suggestions_body ms n)) []) := by
  refine ⟨?_, fun _ _ => rfl, fun _ _ => rfl, fun _ _ => rfl⟩
  rintro α e d ⟨m, rfl⟩
  rfl

/-- Witness for C3 at a concrete raised error. -/
theorem claim_C3_analyzer_never_propagates_witness :
    (∃ m, (Except.error (PyErr.valueError []) : Except PyErr SkillOutput) =
      Except.error m) ∧
    tryExcept (Except.error (PyErr.valueError []) : Except PyErr SkillOutput)
      (SkillOutput.profile []) = SkillOutput.profile [] :=
  ⟨⟨_, rfl⟩,
   claim_C3_analyzer_never_propagates.1 SkillOutput
      (Except.error (PyErr.valueError [])) (SkillOutput.profile []) ⟨_, rfl⟩⟩

/-- C5: the score-tier rules form an exclusive three-way tier.  A score
`≥ 80` adds only the strong-compatibility strength; a score in `[60,80)`
adds only the qualified strength plus exactly two generic action items;
a score `< 60` adds only the ATS-optimization weakness plus exactly four
remediation action items; the three regions are mutually exclusive and
cover every score. -/
theorem claim_C5_exclusive_tiers :
    ∀ (ats : ℚ) (r : Recommendations),
      (80 ≤ ats → tierBlock ats r =
        { r with strengths := r.strengths ++ [S "Strong ATS compatibility"] }) ∧
      (60 ≤ ats ∧ ats < 80 → tierBlock ats r =
        { r with
          strengths := r.strengths ++ [S "Good basic ATS formatting"],
          action_items := r.action_items ++
            [S "Add more industry-specific keywords",
             S "Enhance section headers for better visibility"] }) ∧
      (ats < 60 → tierBlock ats r =
        { r with
          weaknesses := r.weaknesses ++ [S "Needs ATS optimization"],
          action_items := r.action_items ++
            [S "Add relevant keywords from the job description",
             S "Improve section headers (Experience, Education, Skills)",
             S "Use bullet points for better readability",
             S "Include contact information and professional links"] }) ∧
      ((80 ≤ ats ∧ ¬(60 ≤ ats ∧ ats < 80) ∧ ¬ats < 60) ∨
       (¬80 ≤ ats ∧ (60 ≤ ats ∧ ats < 80) ∧ ¬ats < 60) ∨
       (¬80 ≤ ats ∧ ¬(60 ≤ ats ∧ ats < 80) ∧ ats < 60)) := by
  intro ats r
  refine ⟨?_, ?_, ?_, ?_⟩
  · intro h
    simp [tierBlock, h]
  · rintro ⟨h1, h2⟩
    have h3 : ¬(80 : ℚ) ≤ ats := by linarith
    simp [tierBlock, h1, h3]
  · intro h
    have h3 : ¬(80 : ℚ) ≤ ats := by linarith
    have h4 : ¬(60 : ℚ) ≤ ats := by linarith
    simp [tierBlock, h3, h4]
  · rcases le_or_lt 80 ats with h | h
    · exact Or.inl ⟨h, by simp; intro _; linarith, by linarith⟩
    · rcases le_or_lt 60 ats with h2 | h2
      · exact Or.inr (Or.inl ⟨by linarith, ⟨h2, h⟩, by linarith⟩)
      · exact Or.inr (Or.inr ⟨by linarith, by simp; intro h3; linarith, h2⟩)

/-- Witness for C5 in the middle tier at score 70. -/
theorem claim_C5_exclusive_tiers_witness :
    ((60 : ℚ) ≤ 70 ∧ (70 : ℚ) < 80) ∧
    tierBlock 70 ⟨[], [], []⟩ =
      { strengths := [S "Good basic ATS formatting"],
        weaknesses := [],
        action_items :=
          [S "Add more industry-specific keywords",
           S "Enhance section headers for better visibility"] } :=
  ⟨⟨by norm_num, by norm_num⟩,
   by
    have h := (claim_C5_exclusive_tiers 70 ⟨[], [], []⟩).2.1
      ⟨by norm_num, by norm_num⟩
    simpa using h⟩

/-- C7: when the LLM call fails with a rate-limit `ValueError`, the
fallback path of `get_enhanced_llm_analysis` returns normally (never
re-raises) with the fixed degraded-mode stub, and the stub's overall
score is the arithmetic average of the rule-based score and the
preliminary match score. -/
theorem claim_C7_rate_limit_fallback {α β : Type}
    (c1 : Except PyErr α) (c2 : α → Except PyErr β) (ats ms : ℚ) (msg : Str)
    (herr : llmCalls c1 c2 = Except.error (PyErr.valueError msg))
    (hrl : strOccurs (S "Rate limit exceeded") msg = true) :
    get_enhanced_llm_analysis c1 c2 ats ms =
      Except.ok (some (Sum.inr (llmFallbackStub ats)),
                 some (Sum.inr (scoreMatrixStub ats ms)),
                 some (S "Rate limit exceeded. Using basic analysis.")) ∧
    (scoreMatrixStub ats ms).overall_score.score = (ats + ms) / 2 := by
  constructor
  · unfold get_enhanced_llm_analysis
    rw [herr]
    simp [hrl]
  · rfl

/-- Witness for C7 at a concrete simulated rate-limit error. -/
theorem claim_C7_rate_limit_fallback_witness :
    llmCalls (Except.error (PyErr.valueError (S "Rate limit exceeded")))
        (fun _ : Unit => (Except.ok () : Except PyErr Unit)) =
      Except.error (PyErr.valueError (S "Rate limit exceeded")) ∧
    strOccurs (S "Rate limit exceeded") (S "Rate limit exceeded") = true ∧
    (get_enhanced_llm_analysis
        (Except.error (PyErr.valueError (S "Rate limit exceeded")))
        (fun _ : Unit => (Except.ok () : Except PyErr Unit)) 80 60 =
      Except.ok (some (Sum.inr (llmFallbackStub 80)),
                 some (Sum.inr (scoreMatrixStub 80 60)),
                 some (S "Rate limit exceeded. Using basic analysis.")) ∧
     (scoreMatrixStub 80 60).overall_score.score = (80 + 60) / 2) :=
  ⟨rfl, strOccurs_self _,
   claim_C7_rate_limit_fallback
     (Except.error (PyErr.valueError (S "Rate limit exceeded")))
     (fun _ : Unit => (Except.ok () : Except PyErr Unit)) 80 60
     (S "Rate limit exceeded") rfl (strOccurs_self _)⟩

/-- C9: the duplicated trailing `return recommendations` is dead code:
under sequential return semantics the function always returns at the
first `return`, and any statements after that first `return` (in
particular the duplicate) leave the observable result unchanged. -/
theorem claim_C9_second_return_dead :
    ∀ sa ats imps,
      generate_recommendations_run sa ats imps =
        some (generate_recommendations sa ats imps) ∧
      ∀ tail : List (Recommendations → Sum Recommendations Recommendations),
        runReturns ((fun r => Sum.inl r) :: tail)
            (grBody sa ats imps) =
          generate_recommendations_run sa ats imps := by
  intro sa ats imps
  exact ⟨rfl, fun _ => rfl⟩

/-- C10: an empty job-description string is falsy, so `analyze_skills`
behaves exactly as when the argument is absent and returns the flat
profile shape, never the comparison shape. -/
theorem claim_C10_empty_jd_like_absent :
    ∀ r, analyze_skills r (some []) = analyze_skills r none ∧
      ∃ p, analyze_skills r none = SkillOutput.profile p := by
  intro r
  exact ⟨rfl, ⟨_, rfl⟩⟩

/-- A well-formed profile: each category's list only holds skills of the
taxonomy's set for that category, with no duplicates. -/
def profileWF (p : List (Str × List Str)) : Prop :=
  ∀ q ∈ p, (∀ s ∈ q.2, s ∈ dictGet skill_categories q.1) ∧ q.2.Nodup

/-- Well-formedness of every profile inside an `analyze_skills` result. -/
def outputWF : SkillOutput → Prop
  | .profile p => profileWF p
  | .comparison c => profileWF c.resume_skills ∧ profileWF c.job_skills

theorem profileWF_sorted_found (t : Str) :
    profileWF ((foundSkills t).map (fun p => (p.1, sortStr p.2))) := by
  intro q hq
  rcases List.mem_map.mp hq with ⟨p, hp, rfl⟩
  exact ⟨fun s hs => foundSkills_entry_sub hp s (mem_sortStr.mp hs),
         nodup_sortStr (foundSkills_entry_nodup hp)⟩

/-- C8: every skill profile produced by `analyze_skills` (the flat
result as well as the `resume_skills` / `job_skills` profiles of the
comparison result) lists under each category only members of the
taxonomy's set for that category, without duplicates. -/
theorem claim_C8_profiles_well_formed :
    ∀ r jd, outputWF (analyze_skills r jd) := by
  intro r jd
  unfold analyze_skills tryExcept analyze_skills_body
  by_cases h : pyTruthy jd = true
  · simp only [h, if_true]
    exact ⟨profileWF_sorted_found r, profileWF_sorted_found _⟩
  · simp only [Bool.not_eq_true] at h
    simp only [h, Bool.false_eq_true, if_false]
    exact profileWF_sorted_found r

/-- When the job description is truthy, `analyze_skills` returns the
comparison built by `compareSkills` on the two detected profiles. -/
theorem analyze_skills_comparison {r : Str} {jd : Option Str}
    (h : pyTruthy jd = true) :
    analyze_skills r jd =
      SkillOutput.comparison
        (compareSkills (foundSkills r) (foundSkills (jd.getD []))) := by
  unfold analyze_skills tryExcept analyze_skills_body
  simp only [h, if_true]

/-- C2: the matched and missing skills of the comparison partition, as a
set, exactly the taxonomy skills detected in the job description. -/
theorem claim_C2_matched_missing_partition :
    ∀ r jd, pyTruthy jd = true →
      ∃ c, analyze_skills r jd = SkillOutput.comparison c ∧
        ∀ s : Str, (s ∈ c.matched_skills ∨ s ∈ c.missing_skills) ↔
          s ∈ detectedSkills (jd.getD []) := by
  intro r jd h
  refine ⟨_, analyze_skills_comparison h, ?_⟩
  intro s
  show (s ∈ sortStr _ ∨ s ∈ sortStr _) ↔ _
  simp only [mem_sortStr, detectedSkills, List.mem_flatMap, List.mem_filter,
    decide_eq_true_eq]
  constructor
  · rintro (⟨p, hp, hs, _⟩ | ⟨p, hp, hs, _⟩) <;> exact ⟨p, hp, hs⟩
  · rintro ⟨p, hp, hs⟩
    by_cases hm : s ∈ dictGet (foundSkills r) p.1
    · exact Or.inl ⟨p, hp, hs, hm⟩
    · exact Or.inr ⟨p, hp, hs, by simp [hm]⟩

/-- The aggregated matched list of `compareSkills` on detected profiles
has no duplicates (the taxonomy's categories are pairwise disjoint). -/
theorem matched_nodup (r j : Str) :
    ((foundSkills j).flatMap (fun p =>
      p.2.filter (fun s => s ∈ dictGet (foundSkills r) p.1))).Nodup := by
  apply nodup_flatMap_of
  · exact fun p hp => List.Nodup.filter _ (foundSkills_entry_nodup hp)
  · exact fun p s hs => List.mem_of_mem_filter hs
  · exact foundSkills_pairwise j

/-- C1: with a truthy job description, the returned
`skill_match_percentage` equals `100 · |matched| / max(|job-side
union|, 1)`, lies in `[0, 100]`, and is exactly `0` when no job skill is
detected. -/
theorem claim_C1_match_percentage :
    ∀ r jd, pyTruthy jd = true →
      ∃ c, analyze_skills r jd = SkillOutput.comparison c ∧
        c.skill_match_percentage =
          100 * (c.matched_skills.dedup.length : ℚ) /
            ((max ((detectedSkills (jd.getD [])).dedup.length) 1 : ℕ) : ℚ) ∧
        0 ≤ c.skill_match_percentage ∧ c.skill_match_percentage ≤ 100 ∧
        (detectedSkills (jd.getD []) = [] → c.skill_match_percentage = 0) := by
  intro r jd h
  refine ⟨_, analyze_skills_comparison h, ?_, ?_, ?_, ?_⟩
  all_goals
    set j := jd.getD [] with hj
    set ms := (foundSkills j).flatMap (fun p =>
      p.2.filter (fun s => s ∈ dictGet (foundSkills r) p.1)) with hms
    set join := (foundSkills j).flatMap (fun p => p.2) with hjoin
  case _ =>
    show (ms.length : ℚ) / ((max join.dedup.length 1 : ℕ) : ℚ) * 100 =
      100 * ((sortStr ms).dedup.length : ℚ) /
        ((max join.dedup.length 1 : ℕ) : ℚ)
    have h1 : (sortStr ms).dedup = sortStr ms :=
      List.dedup_eq_self.mpr (nodup_sortStr (matched_nodup r j))
    rw [h1, length_sortStr]
    ring
  case _ =>
    show (0 : ℚ) ≤ (ms.length : ℚ) / ((max join.dedup.length 1 : ℕ) : ℚ) * 100
    positivity
  case _ =>
    show (ms.length : ℚ) / ((max join.dedup.length 1 : ℕ) : ℚ) * 100 ≤ 100
    have hsub : ms ⊆ join.dedup := by
      intro s hs
      rw [List.mem_dedup]
      rcases List.mem_flatMap.mp hs with ⟨p, hp, hsp⟩
      exact List.mem_flatMap.mpr ⟨p, hp, List.mem_of_mem_filter hsp⟩
    have hlen : ms.length ≤ join.dedup.length :=
      List.Subperm.length_le (List.Nodup.subperm (matched_nodup r j) hsub)
    have hden : (0 : ℚ) < ((max join.dedup.length 1 : ℕ) : ℚ) := by
      have : (1 : ℕ) ≤ max join.dedup.length 1 := le_max_right _ _
      exact_mod_cast Nat.lt_of_lt_of_le Nat.zero_lt_one this
    have hle : (ms.length : ℚ) ≤ ((max join.dedup.length 1 : ℕ) : ℚ) := by
      exact_mod_cast le_trans hlen (le_max_left _ _)
    calc (ms.length : ℚ) / ((max join.dedup.length 1 : ℕ) : ℚ) * 100
        ≤ 1 * 100 := by
          apply mul_le_mul_of_nonneg_right _ (by norm_num)
          exact (div_le_one hden).mpr hle
      _ = 100 := by norm_num
  case _ =>
    intro hempty
    show (ms.length : ℚ) / ((max join.dedup.length 1 : ℕ) : ℚ) * 100 = 0
    have hjoin0 : join = [] := hempty
    have : ms = [] := by
      rw [List.eq_nil_iff_forall_not_mem]
      intro s hs
      rcases List.mem_flatMap.mp hs with ⟨p, hp, hsp⟩
      have : s ∈ join :=
        List.mem_flatMap.mpr ⟨p, hp, List.mem_of_mem_filter hsp⟩
      rw [hjoin0] at this
      simp at this
    rw [this]
    simp

/-- Witness for C1 at a concrete resume/job pair. -/
theorem claim_C1_match_percentage_witness :
    pyTruthy (some (S "python and aws")) = true ∧
    (∃ c, analyze_skills (S "python") (some (S "python and aws")) =
        SkillOutput.comparison c ∧
      c.skill_match_percentage =
        100 * (c.matched_skills.dedup.length : ℚ) /
          ((max ((detectedSkills ((some (S "python and aws")).getD
            [])).dedup.length) 1 : ℕ) : ℚ) ∧
      0 ≤ c.skill_match_percentage ∧ c.skill_match_percentage ≤ 100 ∧
      (detectedSkills ((some (S "python and aws")).getD []) = [] →
        c.skill_match_percentage = 0)) :=
  ⟨by decide,
   claim_C1_match_percentage (S "python") (some (S "python and aws"))
     (by decide)⟩

/-- Witness for C2 at a concrete resume/job pair. -/
theorem claim_C2_matched_missing_partition_witness :
    pyTruthy (some (S "java and react")) = true ∧
    (∃ c, analyze_skills (S "java") (some (S "java and react")) =
        SkillOutput.comparison c ∧
      ∀ s : Str, (s ∈ c.matched_skills ∨ s ∈ c.missing_skills) ↔
        s ∈ detectedSkills ((some (S "java and react")).getD [])) :=
  ⟨by decide,
   claim_C2_matched_missing_partition (S "java") (some (S "java and react"))
     (by decide)⟩

/-- C4 counterexample: with the dict `{web_technologies: [react],
programming_languages: [python]}` (web inserted first) the output lists
the programming-languages suggestion first — the priority group follows
the fixed priority-category order, not the dict's insertion order, so
the claimed "insertion order within each group" fails. -/
theorem claim_C4_counterexample :
    get_skill_suggestions
        [(S "web_technologies", [S "react"]),
         (S "programming_languages", [S "python"])] 5 =
      [prioMsg (S "programming_languages") (S "python"),
       prioMsg (S "web_technologies") (S "react")] ∧
    get_skill_suggestions
        [(S "web_technologies", [S "react"]),
         (S "programming_languages", [S "python"])] 5 ≠
      [prioMsg (S "web_technologies") (S "react"),
       prioMsg (S "programming_languages") (S "python")] := by
  constructor
  · decide
  · decide

/-- Structure of the second loop of `get_skill_suggestions`: it consumes
some prefix of the remaining (non-priority) categories, in insertion
order, contributing at most one suggestion (`skills[:1]`) per
category. -/
theorem remainingLoop_shape (d : List (Str × List Str)) (n : Nat) :
    ∀ (cs : List Str) (acc : List Str),
      ∃ ks t, ks ++ t = cs ∧
        remainingLoop d n cs acc =
          acc ++ ks.flatMap (fun c => ((dictGet d c).take 1).map restMsg) := by
  intro cs
  induction cs with
  | nil =>
    intro acc
    exact ⟨[], [], rfl, by simp [remainingLoop]⟩
  | cons c rest ih =>
    intro acc
    by_cases h : n ≤ acc.length
    · refine ⟨[], c :: rest, rfl, ?_⟩
      simp [remainingLoop, h]
    · rcases ih (acc ++ ((dictGet d c).take 1).map restMsg) with ⟨ks, t, hks, he⟩
      refine ⟨c :: ks, t, by simp [hks], ?_⟩
      simp only [remainingLoop, h, if_false]
      rw [he, List.flatMap_cons, List.append_assoc]

/-- C4 (amended): `get_skill_suggestions` returns at most `limit`
suggestions; the output is a truncation of the priority-category
suggestions (in the fixed priority-category order, at most 2 per
category via `skills[:2]`) followed by at most one suggestion per
non-priority category, the latter taken from a prefix of the dict's
remaining keys in insertion order. -/
theorem claim_C4_amended_structure :
    ∀ (d : List (Str × List Str)) (n : Nat),
      (get_skill_suggestions d n).length ≤ n ∧
      ∃ ks t, ks ++ t = nonPriorityKeys d ∧
        get_skill_suggestions d n =
          (prioritySuggestions d ++
            ks.flatMap (fun c => ((dictGet d c).take 1).map restMsg)).take n := by
  intro d n
  constructor
  · show (get_skill_suggestions_body d n).length ≤ n
    simp only [get_skill_suggestions_body]
    split
    · exact le_trans (le_of_eq (List.length_take _ _)) (min_le_left _ _)
    · exact le_trans (le_of_eq (List.length_take _ _)) (min_le_left _ _)
  · by_cases hlt : (prioritySuggestions d).length < n
    · rcases remainingLoop_shape d n (nonPriorityKeys d) (prioritySuggestions d)
        with ⟨ks, t, hks, he⟩
      refine ⟨ks, t, hks, ?_⟩
      simp [get_skill_suggestions, tryExcept, get_skill_suggestions_body,
        hlt, he]
    · refine ⟨[], nonPriorityKeys d, by simp, ?_⟩
      simp [get_skill_suggestions, tryExcept, get_skill_suggestions_body, hlt]

/-!  ## C6: no case-insensitive duplicate action items -/

/-- No two entries of the list are equal up to lowercasing. -/
def noDupCI (l : List Str) : Prop :=
  l.Pairwise (fun a b => pyLower a ≠ pyLower b)

/-- The action items contributed by the score-tier block. -/
def tierActs (ats : ℚ) : List Str :=
  if 80 ≤ ats then []
  else if 60 ≤ ats then
    [S "Add more industry-specific keywords",
     S "Enhance section headers for better visibility"]
  else
    [S "Add relevant keywords from the job description",
     S "Improve section headers (Experience, Education, Skills)",
     S "Use bullet points for better readability",
     S "Include contact information and professional links"]

/-- The action items contributed by the skill-analysis block. -/
def skillActs : Option (List Str × List Str) → List Str
  | none => []
  | some (_, missing) =>
      if missing.isEmpty then []
      else
        [S "Consider developing: " ++ joinComma (missing.take 3),
         S "Focus on acquiring the missing technical skills",
         S "Highlight transferable skills that compensate for gaps"]

theorem tierBlock_action_items (ats : ℚ) (r : Recommendations) :
    (tierBlock ats r).action_items = r.action_items ++ tierActs ats := by
  unfold tierBlock tierActs
  split_ifs <;> simp

theorem skillBlock_action_items (sa : Option (List Str × List Str))
    (r : Recommendations) :
    (skillBlock sa r).action_items = r.action_items ++ skillActs sa := by
  rcases sa with _ | ⟨m, missing⟩
  · simp [skillBlock, skillActs]
  · unfold skillBlock skillActs
    by_cases hm : missing.isEmpty <;> by_cases ht : m.isEmpty <;>
      simp [hm, ht]

theorem ne_lower_concat {pre j t : Str}
    (h : strHasPre (pyLower pre) (pyLower t) = false) :
    pyLower (pre ++ j) ≠ pyLower t := by
  rw [pyLower_append]
  intro hc
  rw [(strHasPre_iff _ _).mpr ⟨pyLower j, hc⟩] at h
  cases h

/-- The unconditional (tier + skill) action items are pairwise distinct
case-insensitively, for every score and every skill analysis. -/
theorem base_noDupCI (ats : ℚ) (sa : Option (List Str × List Str)) :
    noDupCI ((skillBlock sa (tierBlock ats ⟨[], [], []⟩)).action_items) := by
  rw [skillBlock_action_items, tierBlock_action_items]
  simp only [List.nil_append]
  have htier : noDupCI (tierActs ats) ∧ ∀ a ∈ tierActs ats,
      strHasPre (pyLower (S "Consider developing: ")) (pyLower a) = false ∧
      pyLower a ≠
        pyLower (S "Focus on acquiring the missing technical skills") ∧
      pyLower a ≠
        pyLower (S "Highlight transferable skills that compensate for gaps") := by
    unfold tierActs noDupCI
    split_ifs <;> exact ⟨by decide, by decide⟩
  rcases sa with _ | ⟨m, missing⟩
  · simpa [skillActs] using htier.1
  · unfold skillActs
    by_cases hm : missing.isEmpty
    · simpa [hm] using htier.1
    · simp only [hm, Bool.false_eq_true, if_false]
      unfold noDupCI
      rw [List.pairwise_append]
      refine ⟨htier.1, ?_, ?_⟩
      · refine List.Pairwise.cons ?_
          (List.Pairwise.cons ?_ (List.pairwise_singleton _ _))
        · intro b hb
          rcases List.mem_cons.mp hb with rfl | hb2
          · exact ne_lower_concat (by decide)
          · rcases List.mem_singleton.mp hb2 with rfl
            exact ne_lower_concat (by decide)
        · intro b hb
          rcases List.mem_singleton.mp hb with rfl
          decide
      · intro a ha b hb
        rcases List.mem_cons.mp hb with rfl | hb2
        · exact fun hc => ne_lower_concat ((htier.2 a ha).1) hc.symm
        · rcases List.mem_cons.mp hb2 with rfl | hb3
          · exact (htier.2 a ha).2.1
          · rcases List.mem_cons.mp hb3 with rfl | hb4
            · exact (htier.2 a ha).2.2
            · cases hb4

theorem noDupCI_append_one {l : List Str} {x : Str} (hl : noDupCI l)
    (hx : ∀ y ∈ l, pyLower y ≠ pyLower x) : noDupCI (l ++ [x]) := by
  unfold noDupCI at hl ⊢
  rw [List.pairwise_append]
  refine ⟨hl, List.pairwise_singleton _ _, ?_⟩
  intro a ha b hb
  rcases List.mem_singleton.mp hb with rfl
  exact hx a ha

theorem llmMergeStep_noDupCI {r : Recommendations} {imp : Str}
    (h : noDupCI r.action_items) :
    noDupCI (llmMergeStep r imp).action_items := by
  unfold llmMergeStep
  by_cases hany : r.action_items.any (fun item => ciSubstr imp item) = true
  · simpa [hany] using h
  · simp only [Bool.not_eq_true] at hany
    simp only [hany, Bool.false_eq_true, if_false]
    apply noDupCI_append_one h
    intro y hy heq
    have hc : ciSubstr imp y = true := ciSubstr_of_lower_eq heq.symm
    have := (List.any_eq_false.mp hany) y hy
    simp [hc] at this

theorem formatStep_noDupCI {r : Recommendations} {rec : Str}
    (h : noDupCI r.action_items) :
    noDupCI (formatStep r rec).action_items := by
  unfold formatStep
  by_cases hany : r.action_items.any (fun item => ciSubstr rec item) = true
  · simpa [hany] using h
  · simp only [Bool.not_eq_true] at hany
    simp only [hany, Bool.not_false, if_true]
    apply noDupCI_append_one h
    intro y hy heq
    have hc : ciSubstr rec y = true := ciSubstr_of_lower_eq heq.symm
    have := (List.any_eq_false.mp hany) y hy
    simp [hc] at this

theorem foldl_llmMergeStep_noDupCI :
    ∀ (imps : List Str) (r : Recommendations), noDupCI r.action_items →
      noDupCI (imps.foldl llmMergeStep r).action_items := by
  intro imps
  induction imps with
  | nil => exact fun r h => h
  | cons i rest ih => exact fun r h => ih _ (llmMergeStep_noDupCI h)

theorem foldl_formatStep_noDupCI :
    ∀ (recs : List Str) (r : Recommendations), noDupCI r.action_items →
      noDupCI (recs.foldl formatStep r).action_items := by
  intro recs
  induction recs with
  | nil => exact fun r h => h
  | cons i rest ih => exact fun r h => ih _ (formatStep_noDupCI h)

theorem llmBlock_noDupCI {imps : List Str} {r : Recommendations}
    (h : noDupCI r.action_items) :
    noDupCI (llmBlock imps r).action_items := by
  unfold llmBlock
  split
  · exact h
  · exact foldl_llmMergeStep_noDupCI imps r h

theorem formatBlock_noDupCI {ats : ℚ} {r : Recommendations}
    (h : noDupCI r.action_items) :
    noDupCI (formatBlock ats r).action_items := by
  unfold formatBlock
  split
  · exact foldl_formatStep_noDupCI format_recommendations r h
  · exact h

/-- C6: the composed `action_items` never contains two entries that are
case-insensitive duplicates of each other, and each LLM-suggested
improvement is skipped exactly when some already-inserted action item
contains it as a case-insensitive substring, otherwise appended. -/
theorem claim_C6_no_ci_duplicate_action_items :
    ∀ (sa : Option (List Str × List Str)) (ats : ℚ) (imps : List Str),
      noDupCI (generate_recommendations sa ats imps).action_items ∧
      ∀ (r : Recommendations) (imp : Str),
        ((∃ item ∈ r.action_items, ciSubstr imp item = true) →
          llmMergeStep r imp = r) ∧
        ((¬ ∃ item ∈ r.action_items, ciSubstr imp item = true) →
          llmMergeStep r imp =
            { r with action_items := r.action_items ++ [imp] }) := by
  intro sa ats imps
  constructor
  · exact formatBlock_noDupCI (llmBlock_noDupCI (base_noDupCI ats sa))
  · intro r imp
    constructor
    · rintro ⟨item, hit, hci⟩
      unfold llmMergeStep
      have hany : r.action_items.any (fun it => ciSubstr imp it) = true :=
        List.any_eq_true.mpr ⟨item, hit, hci⟩
      simp [hany]
    · intro hn
      unfold llmMergeStep
      have hany : r.action_items.any (fun it => ciSubstr imp it) = false := by
        rw [List.any_eq_false]
        intro x hx
        simp only [Bool.not_eq_true]
        by_contra hc
        simp only [Bool.not_eq_false] at hc
        exact hn ⟨x, hx, hc⟩
      simp [hany]

/-- Witness for C6's merge-step characterization at concrete inputs. -/
theorem claim_C6_no_ci_duplicate_action_items_witness :
    (∃ item ∈ (Recommendations.mk [] [] [S "Abc"]).action_items,
      ciSubstr (S "abc") item = true) ∧
    llmMergeStep ⟨[], [], [S "Abc"]⟩ (S "abc") = ⟨[], [], [S "Abc"]⟩ :=
  ⟨by decide,
   ((claim_C6_no_ci_duplicate_action_items none 90 []).2
      ⟨[], [], [S "Abc"]⟩ (S "abc")).1 (by decide)⟩

